import Mathlib

/-!
Verification development for the cloudcost-mcp repository.

The TypeScript sources are shallowly embedded in Lean:
JavaScript numbers are modelled as rationals (ℚ), `Math.round` as
half-up rounding, thrown exceptions as `Except.error`, and the
stable `Array.prototype.sort` as `List.mergeSort` (which Lean's
standard library proves stable).  Definitions keep the source names.
-/

namespace CloudCost

/-! ## JavaScript numeric helpers

The embedded arithmetic works over ℚ.  `Math.round` in JavaScript rounds
half-way cases toward positive infinity, which on the rationals is
`⌊x + 1/2⌋`. -/

/-- Model of JavaScript `Math.round`: half-up rounding to an integer. -/
def jsRound (x : ℚ) : ℤ := ⌊x + 1 / 2⌋

/-- Model of `Math.round(x * 10000) / 10000` (round to 4 decimal places). -/
def round4 (x : ℚ) : ℚ := (jsRound (x * 10000) : ℚ) / 10000

/-- Model of `Math.round(x * 100) / 100` (round to 2 decimal places). -/
def round2 (x : ℚ) : ℚ := (jsRound (x * 100) : ℚ) / 100

/-- Model of `Math.round(x * 10) / 10` (round to 1 decimal place). -/
def round1 (x : ℚ) : ℚ := (jsRound (x * 10) : ℚ) / 10

/-! ## Formula library (`src/engine/formulas.ts`) -/

/-- Result record of `calculateAIModelCost`. -/
structure AIModelCost where
  inputCost : ℚ
  outputCost : ℚ
  totalCost : ℚ
  deriving Repr, DecidableEq

/-- Embedding of `calculateAIModelCost` (formulas.ts lines 8-23):
cost components are `(tokens / 1e6) * pricePerMillion`, each rounded to
4 decimal places; the total is rounded after summing the raw values. -/
def calculateAIModelCost (inputTokens outputTokens inputPricePerMillion outputPricePerMillion : ℚ) :
    AIModelCost :=
  let inputCost := inputTokens / 1000000 * inputPricePerMillion
  let outputCost := outputTokens / 1000000 * outputPricePerMillion
  let totalCost := inputCost + outputCost
  { inputCost := round4 inputCost
    outputCost := round4 outputCost
    totalCost := round4 totalCost }

/-- Result record of `calculateBreakEven`; `breakEvenMonths` is `null`
in the source when no crossover exists, modelled as `none`. -/
structure BreakEvenResult where
  breakEvenMonths : Option ℚ
  recommendation : String
  deriving Repr, DecidableEq

/-- The interpolated recommendation string of the final return site of
`calculateBreakEven`. -/
def breakEvenAtMsg (n : ℤ) : String :=
  "Break-even at " ++ toString n ++ " months"

/-- Embedding of `calculateBreakEven` (formulas.ts lines 268-306).
Option A is `(upfrontA, monthlyA)`, option B is `(upfrontB, monthlyB)`. -/
def calculateBreakEven (upfrontA monthlyA upfrontB monthlyB : ℚ) : BreakEvenResult :=
  if monthlyA = monthlyB then
    if upfrontA < upfrontB then
      { breakEvenMonths := some 0
        recommendation := "Option A has lower upfront cost with equal monthly costs" }
    else
      { breakEvenMonths := some 0
        recommendation := "Option B has lower upfront cost with equal monthly costs" }
  else
    let monthlyDiff := monthlyA - monthlyB
    let upfrontDiff := upfrontB - upfrontA
    if monthlyDiff = 0 then
      { breakEvenMonths := none
        recommendation := "No break-even point with equal monthly costs" }
    else
      let breakEvenMonths := upfrontDiff / monthlyDiff
      if breakEvenMonths < 0 then
        if upfrontA ≤ upfrontB ∧ monthlyA ≤ monthlyB then
          { breakEvenMonths := none, recommendation := "Option A is always cheaper" }
        else
          { breakEvenMonths := none, recommendation := "Option B is always cheaper" }
      else
        { breakEvenMonths := some (round1 breakEvenMonths)
          recommendation := breakEvenAtMsg ⌈breakEvenMonths⌉ }

/-- One pricing tier of `calculateBandwidthCost`: `limit` is the cumulative
GB limit (`none` models the JavaScript `Infinity` sentinel used for the
last tier), `rate` the per-GB price inside the tier. -/
structure BwTier where
  limit : Option ℚ
  rate : ℚ
  deriving Repr, DecidableEq

/-- One row of the per-tier breakdown returned by `calculateBandwidthCost`.
The presentational label string of the source row is omitted. -/
structure BwRow where
  gb : ℚ
  cost : ℚ
  deriving Repr, DecidableEq

/-- Loop body of `calculateBandwidthCost` (formulas.ts lines 149-167);
arguments carry the mutable `remaining` and `previousLimit` variables and
the result accumulates `totalCost` (unrounded) and `breakdown`.
When a tier has `limit = none` (Infinity), the consumed amount
`min remaining (∞ - previousLimit)` equals `remaining`, so the whole
remainder is consumed and the carried `previousLimit` is never read again
(the next iteration exits on `remaining <= 0`); the carried value is
therefore left unchanged in that branch. -/
def bandwidthLoop : List BwTier → ℚ → ℚ → ℚ × List BwRow
  | [], _, _ => (0, [])
  | t :: rest, remaining, previousLimit =>
    if remaining ≤ 0 then (0, [])
    else
      let gbInTier := match t.limit with
        | none => remaining
        | some l => min remaining (l - previousLimit)
      let tierCost := gbInTier * t.rate
      let next := bandwidthLoop rest (remaining - gbInTier)
        (match t.limit with | none => previousLimit | some l => l)
      (tierCost + next.1,
        (if 0 < gbInTier then [{ gb := gbInTier, cost := round2 tierCost }] else []) ++ next.2)

/-- Embedding of `calculateBandwidthCost` (formulas.ts lines 140-173). -/
def calculateBandwidthCost (gbTransferred : ℚ) (tiers : List BwTier) : ℚ × List BwRow :=
  let r := bandwidthLoop tiers gbTransferred 0
  (round2 r.1, r.2)

/-- Spec-side predicate: the cumulative tier limits ascend starting from
`prev` (tiers after an unlimited tier are unreachable and unconstrained). -/
def chainAsc : ℚ → List BwTier → Prop
  | _, [] => True
  | prev, t :: rest =>
    match t.limit with
    | none => True
    | some l => prev ≤ l ∧ chainAsc l rest

/-- Spec-side total capacity of a tier list above the cumulative mark
`prev`; `none` means unlimited. -/
def capacityFrom : ℚ → List BwTier → Option ℚ
  | _, [] => some 0
  | prev, t :: rest =>
    match t.limit with
    | none => none
    | some l =>
      match capacityFrom l rest with
      | none => none
      | some c => some ((l - prev) + c)

/-! ## String helpers mirroring JavaScript

All configured keywords and model identifiers are ASCII, so
`String.prototype.toLowerCase` is modelled by the ASCII lower-casing of
each character. -/

/-- Model of `task.toLowerCase()` (ASCII), mapping each character
through `Char.toLower` (defined directly on the character list so it
computes by kernel reduction). -/
def jsToLower (s : String) : String := { data := s.data.map Char.toLower }

/-- Boolean test that `pat` is a prefix of `s` (over character lists). -/
def isPre : List Char → List Char → Bool
  | [], _ => true
  | _ :: _, [] => false
  | a :: as, b :: bs => a == b && isPre as bs

/-- Boolean substring test over character lists: `pat` occurs in `s` as a
contiguous run.  The empty pattern occurs everywhere, matching JavaScript
`String.prototype.includes`. -/
def listHasSub : List Char → List Char → Bool
  | [], pat => isPre pat []
  | c :: rest, pat => isPre pat (c :: rest) || listHasSub rest pat

/-- Model of `s.includes(pat)`. -/
def hasSub (s pat : String) : Bool := listHasSub s.data pat.data

/-! ## Task classifier (`src/engine/task-classifier.ts`) -/

/-- The `TASK_PATTERNS` table, in declaration order. -/
def TASK_PATTERNS : List (String × List String) := [
  ("development", [
    "build", "create", "make", "develop", "implement", "app", "tool", "system",
    "platform", "website", "webapp", "application", "software", "project",
    "startup", "product", "service", "solution", "automate", "automation",
    "bot", "cli", "api", "backend", "frontend", "fullstack", "saas",
    "convert", "converter", "generator", "builder", "maker"]),
  ("code", [
    "code", "coding", "programming", "debug", "debugging", "refactor",
    "function", "script", "algorithm", "syntax", "compile", "runtime",
    "javascript", "python", "typescript", "java", "rust", "golang",
    "react", "vue", "angular", "nodejs", "django", "flask"]),
  ("audio", [
    "voice", "audio", "speech", "sound", "music", "podcast", "transcribe",
    "transcription", "tts", "text-to-speech", "speech-to-text", "stt",
    "voice clone", "voice conversion", "singing", "song", "spoken",
    "narration", "audiobook", "pronunciation", "accent"]),
  ("video", [
    "video", "animation", "animate", "animated", "movie", "film",
    "ppt", "powerpoint", "presentation", "slides", "slideshow",
    "youtube", "stream", "streaming", "clip", "montage", "editing",
    "render", "rendering", "motion", "visual effects", "vfx"]),
  ("vision", [
    "image", "photo", "picture", "ocr", "screenshot", "diagram",
    "visual", "graphic", "chart", "infographic", "scan", "recognize",
    "detect object", "face detection", "image recognition"]),
  ("reasoning", [
    "reason", "reasoning", "math", "mathematics", "logic", "logical",
    "analyze", "analysis", "calculate", "calculation", "complex",
    "problem solving", "deduce", "inference", "prove", "theorem"]),
  ("embedding", [
    "embed", "embedding", "search", "similarity", "vector", "semantic",
    "rag", "retrieval", "nearest neighbor", "cosine", "vectorize"]),
  ("classification", [
    "classify", "classification", "categorize", "category", "label",
    "labeling", "tag", "tagging", "detect", "detection", "sentiment",
    "spam", "filter", "sort"]),
  ("extraction", [
    "extract", "extraction", "parse", "parsing", "scrape", "scraping",
    "pull", "mine", "mining", "data extraction", "web scraping"]),
  ("chat", [
    "chat", "conversation", "talk", "discuss", "question", "answer",
    "help", "explain", "what is", "how to", "tell me", "describe"])]

/-- The `ClassificationResult` record; `confidence` keeps the literal
string values high / medium / low. -/
structure ClassificationResult where
  taskType : String
  confidence : String
  matchedKeywords : List String
  allScores : List (String × Nat)
  usedFallback : Bool
  deriving Repr, DecidableEq

/-- The per-category `matches` record of `classifyByKeywords`: the
configured keywords of each category that occur in the lower-cased task. -/
def categoryMatches (task : String) : List (String × List String) :=
  TASK_PATTERNS.map fun p => (p.1, p.2.filter fun k => hasSub (jsToLower task) k)

/-- The per-category `scores` record of `classifyByKeywords`. -/
def keywordScores (task : String) : List (String × Nat) :=
  (categoryMatches task).map fun p => (p.1, p.2.length)

/-- The comparator of `.sort(([, a], [, b]) => b - a)`: keep `a` before
`b` when the score of `b` does not exceed the score of `a` (descending);
the engine sort is stable, modelled by `List.mergeSort`. -/
def scoreDesc (a b : String × Nat) : Bool := b.2 ≤ a.2

/-- The disambiguation allow-list of specific domains. -/
def specificDomains : List String := ["audio", "video", "vision"]

/-- Embedding of `classifyByKeywords` (task-classifier.ts lines 474-530). -/
def classifyByKeywords (task : String) : ClassificationResult :=
  let matchTbl := categoryMatches task
  let scores := keywordScores task
  let sortedCategories := scores.mergeSort scoreDesc
  let top := sortedCategories.headD ("", 0)
  let second := sortedCategories.getD 1 ("", 0)
  let confidence : String :=
    if 3 ≤ top.2 then "high"
    else if 2 ≤ top.2 ∨ (1 ≤ top.2 ∧ second.2 < top.2) then "medium"
    else "low"
  if top.1 = "development" ∧ 1 ≤ second.2 ∧ second.1 ∈ specificDomains then
    { taskType := second.1
      confidence := "medium"
      matchedKeywords := (matchTbl.lookup second.1).getD [] ++
        (matchTbl.lookup "development").getD []
      allScores := scores
      usedFallback := false }
  else
    { taskType := if top.2 = 0 then "chat" else top.1
      confidence := confidence
      matchedKeywords := (matchTbl.lookup top.1).getD []
      allScores := scores
      usedFallback := false }

/-- Embedding of `classifyTaskSync` (task-classifier.ts lines 613-615):
the synchronous classifier is exactly the keyword classifier. -/
def classifyTaskSync (task : String) : ClassificationResult :=
  classifyByKeywords task

/-! ## Spec-side normal form of the stable sort

`pickMin le a l` is the earliest best element of `a :: l` and `selSort`
is the selection-sort normal form of a stable sort; the development
proves below that `List.mergeSort` agrees with them, which makes the
tie-breaking by declaration order explicit and the classifier
executable by `decide`. -/

/-- Earliest element of `a :: l` that is best w.r.t. the total Boolean
preorder `le` (earlier elements win ties). -/
def pickMin {α : Type} (le : α → α → Bool) : α → List α → α
  | a, [] => a
  | a, b :: l => let m := pickMin le b l; if le a m then a else m

/-- Selection-sort normal form with explicit fuel (fuel `l.length`
suffices). -/
def selSort {α : Type} [BEq α] (le : α → α → Bool) : Nat → List α → List α
  | _, [] => []
  | 0, l => l
  | fuel + 1, a :: l =>
    let m := pickMin le a l
    m :: selSort le fuel ((a :: l).erase m)

/-- Spec-side top-ranked entry of a score table: the first
highest-scoring category in declaration order. -/
def firstMaxCat : List (String × Nat) → String × Nat
  | [] => ("", 0)
  | a :: l => pickMin scoreDesc a l

/-- Spec-side second-ranked entry: the first maximum after removing the
top-ranked entry. -/
def secondMaxCat (scores : List (String × Nat)) : String × Nat :=
  firstMaxCat (scores.erase (firstMaxCat scores))

/-! ## Pricing engine (`src/engine/pricing-engine.ts`)

The flat catalog files `openai.json` / `anthropic.json` are not part of
the repository snapshot; their contents are the curated model tables the
pricing updater writes (`src/pricing-updater.ts`, `fetchOpenAIPricing`
and `fetchAnthropicPricing`), embedded below.  The estimators take the
catalog as a parameter so the lookup/aliasing logic is verified for
every catalog state. -/

/-- One catalog entry: model name and per-million token rates.  The
descriptive metadata fields (category, best_for, latency, context
window) play no role in the cost estimators and are omitted. -/
structure CatalogEntry where
  name : String
  input_per_million : ℚ
  output_per_million : ℚ
  deriving Repr, DecidableEq

/-- Contents of `openai.json` (pricing-updater.ts lines 60-153). -/
def openaiPricing : List CatalogEntry := [
  { name := "gpt-4o", input_per_million := 5/2, output_per_million := 10 },
  { name := "gpt-4o-mini", input_per_million := 15/100, output_per_million := 6/10 },
  { name := "gpt-4-turbo", input_per_million := 10, output_per_million := 30 },
  { name := "o1", input_per_million := 15, output_per_million := 60 },
  { name := "o1-mini", input_per_million := 3, output_per_million := 12 },
  { name := "o3-mini", input_per_million := 11/10, output_per_million := 22/5 },
  { name := "gpt-4o-realtime", input_per_million := 5, output_per_million := 20 },
  { name := "text-embedding-3-large", input_per_million := 13/100, output_per_million := 0 },
  { name := "text-embedding-3-small", input_per_million := 2/100, output_per_million := 0 }]

/-- Contents of `anthropic.json` (pricing-updater.ts lines 204-263). -/
def anthropicPricing : List CatalogEntry := [
  { name := "claude-3-5-sonnet-20241022", input_per_million := 3, output_per_million := 15 },
  { name := "claude-3-5-haiku-20241022", input_per_million := 4/5, output_per_million := 4 },
  { name := "claude-3-opus-20240229", input_per_million := 15, output_per_million := 75 },
  { name := "claude-3-sonnet-20240229", input_per_million := 3, output_per_million := 15 },
  { name := "claude-3-haiku-20240307", input_per_million := 1/4, output_per_million := 5/4 }]

/-- The `modelAliases` table of `estimateAnthropicCost`
(pricing-engine.ts lines 641-654). -/
def modelAliases : List (String × String) := [
  ("claude-3-5-sonnet", "claude-3-5-sonnet-20241022"),
  ("claude-3.5-sonnet", "claude-3-5-sonnet-20241022"),
  ("claude-3-5-haiku", "claude-3-5-haiku-20241022"),
  ("claude-3.5-haiku", "claude-3-5-haiku-20241022"),
  ("claude-3-opus", "claude-3-opus-20240229"),
  ("claude-3-sonnet", "claude-3-sonnet-20240229"),
  ("claude-3-haiku", "claude-3-haiku-20240307"),
  ("claude-2", "claude-2.1"),
  ("claude-instant", "claude-instant-1.2"),
  ("sonnet", "claude-3-5-sonnet-20241022"),
  ("haiku", "claude-3-5-haiku-20241022"),
  ("opus", "claude-3-opus-20240229")]

/-- Embedding of `calculateCostPerMillion` (formulas.ts lines 28-34) at
the default 0.5 input/output ratio used by the estimators. -/
def calculateCostPerMillion (inputPricePerMillion outputPricePerMillion : ℚ) : ℚ :=
  inputPricePerMillion * (1/2) + outputPricePerMillion * (1 - 1/2)

/-- Result record of the cost estimators.  The presentational fields
(insights, whyNot percentage strings, optimization tips, currency) are
omitted; `alternatives` keeps option name and computed cost. -/
structure AIModelCostResult where
  model : String
  totalCost : ℚ
  inputCost : ℚ
  outputCost : ℚ
  costPer1M : ℚ
  alternatives : List (String × ℚ)
  deriving Repr, DecidableEq

/-- Ascending-cost comparator of the alternatives sort
(`.sort((a, b) => a.cost - b.cost)`, stable). -/
def costAsc (a b : String × ℚ) : Bool := a.2 ≤ b.2

/-- Model of `Array.prototype.join(', ')` on the available-model list. -/
def joinSep : List String → String
  | [] => ""
  | [k] => k
  | k :: rest => k ++ ", " ++ joinSep rest

/-- The alternatives list: every other catalog entry costed with the same
formula, sorted ascending by cost, first three kept. -/
def altList (catalog : List CatalogEntry) (model : String) (tin tout : ℚ) :
    List (String × ℚ) :=
  ((catalog.filter fun e => e.name ≠ model).map fun e =>
      (e.name,
        (calculateAIModelCost tin tout e.input_per_million e.output_per_million).totalCost)
    ).mergeSort costAsc |>.take 3

/-- Embedding of `estimateOpenAICost` (pricing-engine.ts lines 578-633);
a thrown `Error` is `Except.error` carrying the message. -/
def estimateOpenAICost (catalog : List CatalogEntry) (model : String)
    (inputTokens outputTokens : ℚ) : Except String AIModelCostResult :=
  match catalog.find? (fun e => e.name = model) with
  | none => .error ("Unknown OpenAI model: " ++ model ++ ". Available: " ++
      joinSep (catalog.map (·.name)))
  | some pricing =>
    let c := calculateAIModelCost inputTokens outputTokens
      pricing.input_per_million pricing.output_per_million
    .ok { model := model
          totalCost := c.totalCost
          inputCost := c.inputCost
          outputCost := c.outputCost
          costPer1M := calculateCostPerMillion pricing.input_per_million pricing.output_per_million
          alternatives := altList catalog model inputTokens outputTokens }

/-- The meta keys filtered out of the Anthropic availability message. -/
def anthropicMetaKeys : List String := ["prompt_caching", "extended_context", "model_aliases"]

/-- Embedding of `estimateAnthropicCost` (pricing-engine.ts lines
635-721).  The alias table is consulted with the lower-cased input; the
price lookup uses the resolved name, while the alternatives filter and
the returned `model` field use the caller's original string. -/
def estimateAnthropicCost (catalog : List CatalogEntry) (model : String)
    (inputTokens outputTokens : ℚ) : Except String AIModelCostResult :=
  let resolvedModel := (modelAliases.lookup (jsToLower model)).getD model
  match catalog.find? (fun e => e.name = resolvedModel) with
  | none => .error ("Unknown Anthropic model: " ++ model ++ ". Available: " ++
      joinSep ((catalog.map (·.name)).filter fun k => ¬ (k ∈ anthropicMetaKeys)))
  | some pricing =>
    let c := calculateAIModelCost inputTokens outputTokens
      pricing.input_per_million pricing.output_per_million
    .ok { model := model
          totalCost := c.totalCost
          inputCost := c.inputCost
          outputCost := c.outputCost
          costPer1M := calculateCostPerMillion pricing.input_per_million pricing.output_per_million
          alternatives := altList catalog model inputTokens outputTokens }

/-! ## Database tier recommendation (`src/tools/optimization.ts`) -/

/-- One database tier: name, monthly cost, storage limit in GB. -/
structure DbTier where
  name : String
  cost : ℚ
  storage : ℚ
  deriving Repr, DecidableEq

/-- The supabase entry of the handler's fallback tier table
(optimization.ts lines 137-141). -/
def supabaseTiers : List DbTier := [
  { name := "free", cost := 0, storage := 1/2 },
  { name := "pro", cost := 25, storage := 8 },
  { name := "team", cost := 599, storage := 100 }]

/-- The mongodb entry of the fallback tier table. -/
def mongodbTiers : List DbTier := [
  { name := "m0", cost := 0, storage := 1/2 },
  { name := "m10", cost := 57, storage := 10 },
  { name := "m20", cost := 140, storage := 20 },
  { name := "m30", cost := 280, storage := 40 }]

/-- The neon entry of the fallback tier table. -/
def neonTiers : List DbTier := [
  { name := "free", cost := 0, storage := 1/2 },
  { name := "launch", cost := 19, storage := 10 },
  { name := "scale", cost := 69, storage := 50 }]

/-- The planetscale entry of the fallback tier table. -/
def planetscaleTiers : List DbTier := [
  { name := "hobby", cost := 0, storage := 5 },
  { name := "scaler", cost := 29, storage := 10 },
  { name := "scaler_pro", cost := 39, storage := 50 }]

/-- Result record of `handleDatabaseTierRecommendation`.  String-valued
presentational fields are reduced to the data they interpolate:
`headroomPercent` is the rounded percentage inside `growthBuffer`, and
`insightTypes` keeps the `type` tags of the returned insights. -/
structure DatabaseTierResult where
  recommendedTier : String
  recommendedCost : ℚ
  tierLimitStorage : ℚ
  headroomPercent : ℤ
  futureTierName : String
  insightTypes : List String
  deriving Repr, DecidableEq

/-- Embedding of `handleDatabaseTierRecommendation` (optimization.ts
lines 126-221) over an arbitrary tier list (the dynamic-pricing path
sorts tiers ascending by cost; the fallback tables above are already in
that order).  An empty tier list throws. -/
def handleDatabaseTierRecommendation (tiers : List DbTier)
    (storageGb expectedGrowth : ℚ) : Except String DatabaseTierResult :=
  if tiers.isEmpty then
    .error "Unknown provider or no pricing data"
  else
    let last := tiers.getLastD { name := "", cost := 0, storage := 0 }
    let currentBestTier := (tiers.find? fun t => storageGb ≤ t.storage).getD last
    let projectedStorage := storageGb * (1 + expectedGrowth) ^ 6
    let futureTier := (tiers.find? fun t => projectedStorage ≤ t.storage).getD last
    let headroom := (currentBestTier.storage - storageGb) / currentBestTier.storage * 100
    .ok { recommendedTier := currentBestTier.name
          recommendedCost := currentBestTier.cost
          tierLimitStorage := currentBestTier.storage
          headroomPercent := jsRound headroom
          futureTierName := futureTier.name
          insightTypes := ["action", "prediction"] }

/-- Modelled from the spec: "signal this degraded case in the response
(do not silently recommend an insufficient tier)".  Under the source's
`Insight` taxonomy (types.ts: warning / opportunity / prediction /
benchmark / action) an explicit degraded-case signal is a warning-type
insight attached to the result. -/
def specSignalsDegraded (r : DatabaseTierResult) : Prop :=
  "warning" ∈ r.insightTypes

/-! ## Pricing updater (`src/pricing-updater.ts`)

Each fetcher wraps its whole body in try/catch and resolves with a
per-source report; a thrown exception (network failure, timeout,
file-system error) is modelled as `Except.error` in the fetcher's
environment, and the deterministic table-diff computation of a
successful body is abstracted to the resulting updated-item count, which
is what the status decision reads. -/

/-- Per-source status values. -/
inductive UpdStatus
  | success
  | failed
  | no_change
  deriving Repr, DecidableEq

/-- The per-source report (`PriceUpdate`); the wall-clock `lastUpdate`
timestamp is outside the model. -/
structure PriceUpdate where
  source : String
  itemsUpdated : Nat
  status : UpdStatus
  message : Option String
  deriving Repr, DecidableEq

/-- Environment of an HTTP-backed fetcher body: response flag, status
code and the updated-item count its merge loop computes. -/
structure HttpBody where
  respOk : Bool
  statusCode : Nat
  itemsCount : Nat
  updatedCount : Nat
  deriving Repr, DecidableEq

/-- Embedding of `fetchOpenAIPricing` (pricing-updater.ts lines 56-197). -/
def fetchOpenAIPricing (env : Except String Nat) : PriceUpdate :=
  match env with
  | .error e => { source := "OpenAI", itemsUpdated := 0, status := .failed, message := some e }
  | .ok updated =>
    { source := "OpenAI (pricing + specs)", itemsUpdated := updated
      status := if 0 < updated then .success else .no_change, message := none }

/-- Embedding of `fetchAnthropicPricing` (pricing-updater.ts lines 201-309). -/
def fetchAnthropicPricing (env : Except String Nat) : PriceUpdate :=
  match env with
  | .error e => { source := "Anthropic", itemsUpdated := 0, status := .failed, message := some e }
  | .ok updated =>
    { source := "Anthropic (pricing + specs)", itemsUpdated := updated
      status := if 0 < updated then .success else .no_change, message := none }

/-- Embedding of `fetchAWSBulkPricing` (pricing-updater.ts lines
313-475): a non-2xx index response fails the source before the curated
table merge runs. -/
def fetchAWSBulkPricing (env : Except String HttpBody) : PriceUpdate :=
  match env with
  | .error e => { source := "AWS Bulk", itemsUpdated := 0, status := .failed, message := some e }
  | .ok b =>
    if ¬ b.respOk then
      { source := "AWS Bulk", itemsUpdated := 0, status := .failed
        message := some ("Index API returned " ++ toString b.statusCode) }
    else
      { source := "AWS EC2 (bulk + specs)", itemsUpdated := b.updatedCount
        status := if 0 < b.updatedCount then .success else .no_change, message := none }

/-- Embedding of `fetchAzurePricing` (pricing-updater.ts lines 479-554). -/
def fetchAzurePricing (env : Except String HttpBody) : PriceUpdate :=
  match env with
  | .error e => { source := "Azure VMs", itemsUpdated := 0, status := .failed, message := some e }
  | .ok b =>
    if ¬ b.respOk then
      { source := "Azure VMs", itemsUpdated := 0, status := .failed
        message := some ("API returned " ++ toString b.statusCode) }
    else
      { source := "Azure VMs (API)", itemsUpdated := b.updatedCount
        status := if 0 < b.updatedCount then .success else .no_change
        message := some ("Checked " ++ toString b.itemsCount ++ " items") }

/-- Embedding of `fetchGCPPricing` (pricing-updater.ts lines 892-958). -/
def fetchGCPPricing (env : Except String Nat) : PriceUpdate :=
  match env with
  | .error e => { source := "GCP Compute", itemsUpdated := 0, status := .failed, message := some e }
  | .ok updated =>
    { source := "GCP Compute (specs)", itemsUpdated := updated
      status := if 0 < updated then .success else .no_change, message := none }

/-- Embedding of `fetchSupabasePricing` (pricing-updater.ts lines 558-631). -/
def fetchSupabasePricing (env : Except String Nat) : PriceUpdate :=
  match env with
  | .error e => { source := "Supabase", itemsUpdated := 0, status := .failed, message := some e }
  | .ok updated =>
    { source := "Supabase", itemsUpdated := updated
      status := if 0 < updated then .success else .no_change, message := none }

/-- Embedding of `fetchVercelPricing` (pricing-updater.ts lines 635-702). -/
def fetchVercelPricing (env : Except String Nat) : PriceUpdate :=
  match env with
  | .error e => { source := "Vercel", itemsUpdated := 0, status := .failed, message := some e }
  | .ok updated =>
    { source := "Vercel", itemsUpdated := updated
      status := if 0 < updated then .success else .no_change, message := none }

/-- Embedding of `fetchMongoDBPricing` (pricing-updater.ts lines 706-799). -/
def fetchMongoDBPricing (env : Except String Nat) : PriceUpdate :=
  match env with
  | .error e => { source := "MongoDB Atlas", itemsUpdated := 0, status := .failed, message := some e }
  | .ok updated =>
    { source := "MongoDB Atlas", itemsUpdated := updated
      status := if 0 < updated then .success else .no_change, message := none }

/-- Embedding of `fetchCloudflarePricing` (pricing-updater.ts lines 803-888). -/
def fetchCloudflarePricing (env : Except String Nat) : PriceUpdate :=
  match env with
  | .error e => { source := "Cloudflare", itemsUpdated := 0, status := .failed, message := some e }
  | .ok updated =>
    { source := "Cloudflare", itemsUpdated := updated
      status := if 0 < updated then .success else .no_change, message := none }

/-- The environments of the nine configured sources of one update cycle,
in the order `runPricingUpdate` lists them. -/
structure UpdaterEnv where
  openai : Except String Nat
  anthropic : Except String Nat
  aws : Except String HttpBody
  azure : Except String HttpBody
  gcp : Except String Nat
  supabase : Except String Nat
  vercel : Except String Nat
  mongodb : Except String Nat
  cloudflare : Except String Nat

/-- The aggregated `UpdateResult` (timestamp and next-update string are
outside the model). -/
structure UpdateResult where
  updates : List PriceUpdate
  totalItemsUpdated : Nat
  deriving Repr, DecidableEq

/-- Embedding of `runPricingUpdate` (pricing-updater.ts lines 962-994):
`Promise.all` over the nine fetchers, none of which can reject, followed
by the item-count aggregation. -/
def runPricingUpdate (env : UpdaterEnv) : UpdateResult :=
  let updates := [
    fetchOpenAIPricing env.openai,
    fetchAnthropicPricing env.anthropic,
    fetchAWSBulkPricing env.aws,
    fetchAzurePricing env.azure,
    fetchGCPPricing env.gcp,
    fetchSupabasePricing env.supabase,
    fetchVercelPricing env.vercel,
    fetchMongoDBPricing env.mongodb,
    fetchCloudflarePricing env.cloudflare]
  { updates := updates
    totalItemsUpdated := (updates.map (·.itemsUpdated)).sum }

/-- A concrete update-cycle environment in which the Azure source times
out while every other source completes. -/
def timeoutCycleEnv : UpdaterEnv where
  openai := .ok 3
  anthropic := .ok 0
  aws := .ok { respOk := true, statusCode := 200, itemsCount := 16, updatedCount := 2 }
  azure := .error "network timeout"
  gcp := .ok 0
  supabase := .ok 1
  vercel := .ok 0
  mongodb := .ok 0
  cloudflare := .ok 0

/-! ## Helper lemmas and claim theorems -/

/-! ### Stable sort characterization

`List.mergeSort le` on `a :: l` puts the earliest best element
(`pickMin le a l`) first, followed by the stable sort of the remainder;
iterating this yields the selection normal form `selSort`.  This makes
the tie-breaking of the classifier's score sort (and of the alternatives
sort) explicit and computable. -/

theorem pickMin_mem {α : Type} (le : α → α → Bool) (a : α) (l : List α) :
    pickMin le a l ∈ a :: l := by
  induction l generalizing a with
  | nil => simp [pickMin]
  | cons b l ih =>
    by_cases h : le a (pickMin le b l)
    · simp [pickMin, h]
    · simp only [pickMin, if_neg h]
      exact List.mem_cons_of_mem _ (ih b)

theorem pickMin_best {α : Type} (le : α → α → Bool)
    (total : ∀ a b, le a b || le b a)
    (trans : ∀ a b c, le a b → le b c → le a c)
    (a : α) (l : List α) : ∀ y ∈ a :: l, le (pickMin le a l) y := by
  induction l generalizing a with
  | nil =>
    intro y hy
    rcases List.mem_singleton.mp hy with rfl
    simpa [pickMin] using (by simpa using total y y : le y y)
  | cons b l ih =>
    intro y hy
    by_cases h : le a (pickMin le b l)
    · simp only [pickMin, if_pos h]
      rcases List.mem_cons.mp hy with rfl | hy2
      · simpa using total y y
      · exact trans _ _ _ h (ih b y hy2)
    · simp only [pickMin, if_neg h]
      rcases List.mem_cons.mp hy with rfl | hy2
      · rcases Bool.or_eq_true_iff.mp (total y (pickMin le b l)) with h1 | h1
        · exact absurd h1 h
        · exact h1
      · exact ih b y hy2

theorem pickMin_decomp {α : Type} (le : α → α → Bool) (a : α) (l : List α) :
    ∃ l₁ l₂, a :: l = l₁ ++ pickMin le a l :: l₂ ∧
      ∀ y ∈ l₁, ¬ le y (pickMin le a l) := by
  induction l generalizing a with
  | nil => exact ⟨[], [], by simp [pickMin], by simp⟩
  | cons b l ih =>
    by_cases h : le a (pickMin le b l)
    · exact ⟨[], b :: l, by simp [pickMin, h], by simp⟩
    · obtain ⟨t₁, t₂, heq, hall⟩ := ih b
      have hm : pickMin le a (b :: l) = pickMin le b l := by
        simp [pickMin, h]
      refine ⟨a :: t₁, t₂, ?_, ?_⟩
      · rw [hm, List.cons_append, ← heq]
      · intro y hy
        rw [hm]
        rcases List.mem_cons.mp hy with rfl | h2
        · exact h
        · exact hall y h2

theorem append_split_unique {α : Type} (P : α → Bool)
    (x₁ x₂ y₁ y₂ : List α) (heq : x₁ ++ x₂ = y₁ ++ y₂)
    (hx1 : ∀ c ∈ x₁, P c = true) (hx2 : ∀ c ∈ x₂, P c = false)
    (hy1 : ∀ c ∈ y₁, P c = true) (hy2 : ∀ c ∈ y₂, P c = false) :
    x₁ = y₁ ∧ x₂ = y₂ := by
  have cx : (x₁ ++ x₂).countP P = x₁.length := by
    rw [List.countP_append]
    rw [List.countP_eq_length.mpr hx1]
    have : x₂.countP P = 0 := by
      rw [List.countP_eq_zero]
      intro c hc
      simp [hx2 c hc]
    omega
  have cy : (y₁ ++ y₂).countP P = y₁.length := by
    rw [List.countP_append]
    rw [List.countP_eq_length.mpr hy1]
    have : y₂.countP P = 0 := by
      rw [List.countP_eq_zero]
      intro c hc
      simp [hy2 c hc]
    omega
  have hlen : x₁.length = y₁.length := by
    rw [← cx, ← cy, heq]
  exact List.append_inj heq hlen

theorem mergeSort_cons_pickMin {α : Type} [BEq α] [LawfulBEq α] (le : α → α → Bool)
    (trans : ∀ a b c, le a b → le b c → le a c)
    (total : ∀ a b, le a b || le b a) :
    ∀ (n : Nat) (l : List α), l.length ≤ n → ∀ (a : α),
      List.mergeSort (a :: l) le =
        pickMin le a l :: List.mergeSort ((a :: l).erase (pickMin le a l)) le := by
  intro n
  induction n with
  | zero =>
    intro l hl a
    rw [List.length_eq_zero.mp (Nat.le_zero.mp hl)]
    simp [pickMin]
  | succ n ih =>
    intro l hl a
    match l with
    | [] => simp [pickMin]
    | b :: t =>
      by_cases hcase : le a (pickMin le b t)
      · -- the new head is best: it goes first and the tail sort is unchanged
        have hm : pickMin le a (b :: t) = a := by simp [pickMin, hcase]
        rw [hm, List.erase_cons_head]
        obtain ⟨l₁, l₂, h1, h2, h3⟩ := List.mergeSort_cons trans total a (b :: t)
        have hl₁ : l₁ = [] := by
          cases l₁ with
          | nil => rfl
          | cons c cs =>
            have hc : c ∈ List.mergeSort (b :: t) le := by
              rw [h2]; exact List.mem_append_left _ (List.mem_cons_self _ _)
            have hc2 : c ∈ b :: t := List.mem_mergeSort.mp hc
            have hac : le a c :=
              trans _ _ _ hcase (pickMin_best le total trans b t c hc2)
            have := h3 c (List.mem_cons_self _ _)
            simp [hac] at this
        subst hl₁
        simp only [List.nil_append] at h1 h2
        rw [h1, h2]
      · -- a strictly better element sits in the tail
        have hm : pickMin le a (b :: t) = pickMin le b t := by simp [pickMin, hcase]
        set m := pickMin le b t with hm_def
        have hma : le m a := by
          rcases Bool.or_eq_true_iff.mp (total a m) with h1 | h1
          · exact absurd h1 hcase
          · exact h1
        have hne : a ≠ m := by
          intro hEq
          apply hcase
          rw [← hEq]
          simpa using total a a
        have ihb : List.mergeSort (b :: t) le =
            m :: List.mergeSort ((b :: t).erase m) le := by
          have := ih t (by simpa using Nat.le_of_succ_le_succ hl) b
          simpa using this
        obtain ⟨l₁, l₂, h1, h2, h3⟩ := List.mergeSort_cons trans total a (b :: t)
        rw [ihb] at h2
        -- the prefix cannot be empty: the sorted list must not start with a
        obtain ⟨l₁', rfl⟩ : ∃ l₁', l₁ = m :: l₁' := by
          cases l₁ with
          | nil =>
            exfalso
            simp only [List.nil_append] at h2
            have hs := List.sorted_mergeSort trans total (a :: b :: t)
            rw [h1, List.nil_append, ← h2] at hs
            have : le a m := (List.pairwise_cons.mp hs).1 m (List.mem_cons_self _ _)
            exact hcase this
          | cons c cs =>
            simp only [List.cons_append] at h2
            injection h2 with hc _
            exact ⟨cs, by rw [hc]⟩
        have hS : List.mergeSort ((b :: t).erase m) le = l₁' ++ l₂ := by
          have h2' : m :: List.mergeSort ((b :: t).erase m) le = m :: (l₁' ++ l₂) := by
            simpa using h2
          exact List.cons_injective h2'
        have hErase : (a :: b :: t).erase m = a :: ((b :: t).erase m) := by
          rw [List.erase_cons]
          have : (a == m) = false := beq_eq_false_iff_ne.mpr hne
          simp [this]
        rw [hm, hErase]
        obtain ⟨t₁, t₂, g1, g2, g3⟩ :=
          List.mergeSort_cons trans total a ((b :: t).erase m)
        -- both decompositions split the same sorted remainder at the same point
        have hl₂ : ∀ y ∈ l₂, le a y := by
          have sortA := List.sorted_mergeSort trans total (a :: b :: t)
          rw [h1] at sortA
          have hsub : (a :: l₂).Pairwise (fun x y => le x y) :=
            sortA.sublist (List.sublist_append_right _ _)
          exact fun y hy => (List.pairwise_cons.mp hsub).1 y hy
        have ht₂ : ∀ y ∈ t₂, le a y := by
          have sortAR := List.sorted_mergeSort trans total (a :: (b :: t).erase m)
          rw [g1] at sortAR
          have hsub : (a :: t₂).Pairwise (fun x y => le x y) :=
            sortAR.sublist (List.sublist_append_right _ _)
          exact fun y hy => (List.pairwise_cons.mp hsub).1 y hy
        obtain ⟨e1, e2⟩ := append_split_unique (fun y => !le a y) l₁' l₂ t₁ t₂
          (hS.symm.trans g2)
          (fun c hc => h3 c (List.mem_cons_of_mem _ hc))
          (fun c hc => by simp [hl₂ c hc])
          (fun c hc => g3 c hc)
          (fun c hc => by simp [ht₂ c hc])
        rw [h1, g1, e1, e2]
        simp

theorem mergeSort_eq_selSort {α : Type} [BEq α] [LawfulBEq α] (le : α → α → Bool)
    (trans : ∀ a b c, le a b → le b c → le a c)
    (total : ∀ a b, le a b || le b a) :
    ∀ (n : Nat) (l : List α), l.length ≤ n → List.mergeSort l le = selSort le n l := by
  intro n
  induction n with
  | zero =>
    intro l hl
    rw [List.length_eq_zero.mp (Nat.le_zero.mp hl)]
    simp [selSort]
  | succ n ih =>
    intro l hl
    match l with
    | [] => simp [selSort]
    | a :: t =>
      rw [mergeSort_cons_pickMin le trans total t.length t (le_refl _) a]
      simp only [selSort]
      congr 1
      apply ih
      have hm := pickMin_mem le a t
      have : ((a :: t).erase (pickMin le a t)).length = t.length := by
        rw [List.length_erase_of_mem hm]
        simp
      rw [this]
      simpa using Nat.le_of_succ_le_succ hl

theorem scoreDesc_total : ∀ a b, scoreDesc a b || scoreDesc b a := by
  intro a b
  simp only [scoreDesc, Bool.or_eq_true, decide_eq_true_eq]
  omega

theorem scoreDesc_trans : ∀ a b c, scoreDesc a b → scoreDesc b c → scoreDesc a c := by
  intro a b c
  simp only [scoreDesc, decide_eq_true_eq]
  omega

theorem costAsc_total : ∀ a b, costAsc a b || costAsc b a := by
  intro a b
  simp only [costAsc, Bool.or_eq_true, decide_eq_true_eq]
  exact le_total _ _

theorem costAsc_trans : ∀ a b c, costAsc a b → costAsc b c → costAsc a c := by
  intro a b c
  simp only [costAsc, decide_eq_true_eq]
  exact fun h1 h2 => le_trans h1 h2

/-- The classifier's score table always has one entry per configured
category. -/
theorem keywordScores_length (task : String) : (keywordScores task).length = 10 := by
  simp [keywordScores, categoryMatches, TASK_PATTERNS]

/-- The classifier's stable sort in selection normal form. -/
theorem classifier_sort_eq (task : String) :
    (keywordScores task).mergeSort scoreDesc =
      selSort scoreDesc 10 (keywordScores task) := by
  apply mergeSort_eq_selSort scoreDesc scoreDesc_trans scoreDesc_total
  rw [keywordScores_length]

theorem mergeSort_scoreDesc_headD (l : List (String × Nat)) (h : l ≠ [])
    (d : String × Nat) :
    (l.mergeSort scoreDesc).headD d = firstMaxCat l := by
  obtain ⟨a, t, rfl⟩ := List.exists_cons_of_ne_nil h
  rw [mergeSort_cons_pickMin scoreDesc scoreDesc_trans scoreDesc_total t.length t
    (le_refl _) a]
  rfl

theorem mergeSort_scoreDesc_getD_one (l : List (String × Nat)) (h : 2 ≤ l.length)
    (d : String × Nat) :
    (l.mergeSort scoreDesc).getD 1 d = secondMaxCat l := by
  obtain ⟨a, t, rfl⟩ := List.exists_cons_of_ne_nil
    (show l ≠ [] by intro hnil; rw [hnil] at h; simp at h)
  rw [mergeSort_cons_pickMin scoreDesc scoreDesc_trans scoreDesc_total t.length t
    (le_refl _) a]
  have hm := pickMin_mem scoreDesc a t
  have hlen : ((a :: t).erase (pickMin scoreDesc a t)).length = t.length := by
    rw [List.length_erase_of_mem hm]
    simp
  obtain ⟨b, u, hbu⟩ := List.exists_cons_of_ne_nil
    (show (a :: t).erase (pickMin scoreDesc a t) ≠ [] by
      intro hnil
      rw [hnil] at hlen
      simp at h hlen
      omega)
  simp only [List.getD_cons_succ]
  rw [hbu, mergeSort_cons_pickMin scoreDesc scoreDesc_trans scoreDesc_total u.length u
    (le_refl _) b]
  show pickMin scoreDesc b u = secondMaxCat (a :: t)
  unfold secondMaxCat
  show _ = firstMaxCat ((a :: t).erase (firstMaxCat (a :: t)))
  have : firstMaxCat (a :: t) = pickMin scoreDesc a t := rfl
  rw [this, hbu]
  rfl

theorem pickMin_of_all_zero (a : String × Nat) (t : List (String × Nat))
    (h : ∀ y ∈ a :: t, y.2 = 0) : pickMin scoreDesc a t = a := by
  induction t generalizing a with
  | nil => rfl
  | cons b l ih =>
    have hm : pickMin scoreDesc b l ∈ b :: l := pickMin_mem scoreDesc b l
    have h2 : (pickMin scoreDesc b l).2 = 0 := h _ (List.mem_cons_of_mem a hm)
    have ha : a.2 = 0 := h a (List.mem_cons_self _ _)
    have : scoreDesc a (pickMin scoreDesc b l) = true := by
      simp [scoreDesc, h2, ha]
    simp [pickMin, this]

/-- C1 (amended): the keyword classifier scores each category as the
number of distinct configured triggers occurring as substrings of the
lower-cased input; the top-ranked category is the first highest-scoring
one in declaration order (witnessed by the decomposition conjunct);
the returned category is that top-ranked category except that the
development-vs-specific-domain disambiguation override (claim C2)
applies first and an all-zero score table yields chat; the confidence
rule is as stated except that the override forces medium. -/
theorem classifyTaskSync_spec (task : String) :
    ((classifyTaskSync task).allScores = keywordScores task ∧
      ∀ c kws, (c, kws) ∈ TASK_PATTERNS →
        (keywordScores task).lookup c =
          some ((kws.dedup.filter fun k => hasSub (jsToLower task) k).length)) ∧
    ((∀ y ∈ keywordScores task, y.2 ≤ (firstMaxCat (keywordScores task)).2) ∧
      ∃ l₁ l₂, keywordScores task = l₁ ++ firstMaxCat (keywordScores task) :: l₂ ∧
        ∀ y ∈ l₁, y.2 < (firstMaxCat (keywordScores task)).2) ∧
    (classifyTaskSync task).taskType =
      (if (firstMaxCat (keywordScores task)).1 = "development" ∧
          1 ≤ (secondMaxCat (keywordScores task)).2 ∧
          (secondMaxCat (keywordScores task)).1 ∈ specificDomains
        then (secondMaxCat (keywordScores task)).1
        else if (firstMaxCat (keywordScores task)).2 = 0 then "chat"
        else (firstMaxCat (keywordScores task)).1) ∧
    (classifyTaskSync task).confidence =
      (if (firstMaxCat (keywordScores task)).1 = "development" ∧
          1 ≤ (secondMaxCat (keywordScores task)).2 ∧
          (secondMaxCat (keywordScores task)).1 ∈ specificDomains
        then "medium"
        else if 3 ≤ (firstMaxCat (keywordScores task)).2 then "high"
        else if 2 ≤ (firstMaxCat (keywordScores task)).2 ∨
            (1 ≤ (firstMaxCat (keywordScores task)).2 ∧
              (secondMaxCat (keywordScores task)).2 <
                (firstMaxCat (keywordScores task)).2)
          then "medium" else "low") := by
  have hne : keywordScores task ≠ [] := by
    intro hnil
    have := keywordScores_length task
    rw [hnil] at this
    simp at this
  have hlen2 : 2 ≤ (keywordScores task).length := by
    rw [keywordScores_length]
    omega
  have htop := mergeSort_scoreDesc_headD (keywordScores task) hne ("", 0)
  have hsec := mergeSort_scoreDesc_getD_one (keywordScores task) hlen2 ("", 0)
  refine ⟨⟨?_, ?_⟩, ⟨?_, ?_⟩, ?_, ?_⟩
  · simp only [classifyTaskSync, classifyByKeywords]
    split <;> rfl
  · intro c kws hmem
    simp only [TASK_PATTERNS, List.mem_cons, List.not_mem_nil, or_false] at hmem
    rcases hmem with h|h|h|h|h|h|h|h|h|h <;>
      (injection h with h1 h2; subst h1; subst h2;
        rw [List.dedup_eq_self.mpr (by decide)];
        simp [keywordScores, categoryMatches, TASK_PATTERNS, List.lookup])
  · obtain ⟨a, t, hat⟩ := List.exists_cons_of_ne_nil hne
    intro y hy
    rw [hat] at hy ⊢
    have := pickMin_best scoreDesc scoreDesc_total scoreDesc_trans a t y hy
    simpa [firstMaxCat, scoreDesc] using this
  · obtain ⟨a, t, hat⟩ := List.exists_cons_of_ne_nil hne
    rw [hat]
    obtain ⟨l₁, l₂, heq, hall⟩ := pickMin_decomp scoreDesc a t
    refine ⟨l₁, l₂, heq, fun y hy => ?_⟩
    have := hall y hy
    simp only [firstMaxCat, scoreDesc, decide_eq_true_eq] at this ⊢
    omega
  · simp only [classifyTaskSync, classifyByKeywords]
    rw [htop, hsec]
    by_cases hc : (firstMaxCat (keywordScores task)).1 = "development" ∧
        1 ≤ (secondMaxCat (keywordScores task)).2 ∧
        (secondMaxCat (keywordScores task)).1 ∈ specificDomains
    · rw [if_pos hc, if_pos hc]
    · rw [if_neg hc, if_neg hc]
  · simp only [classifyTaskSync, classifyByKeywords]
    rw [htop, hsec]
    by_cases hc : (firstMaxCat (keywordScores task)).1 = "development" ∧
        1 ≤ (secondMaxCat (keywordScores task)).2 ∧
        (secondMaxCat (keywordScores task)).1 ∈ specificDomains
    · rw [if_pos hc, if_pos hc]
    · rw [if_neg hc, if_neg hc]

/-- Witness for C1 at an input that follows the generic ranking rule:
three distinct `code` keywords and nothing else give category `code`
with confidence `high`. -/
theorem classifyTaskSync_spec_witness :
    (classifyTaskSync "debug my python code").taskType = "code" ∧
    (classifyTaskSync "debug my python code").confidence = "high" := by
  have h := classifyTaskSync_spec "debug my python code"
  exact ⟨h.2.2.1.trans (by decide), h.2.2.2.trans (by decide)⟩

/-- Counterexample to C1 as frozen: on the input
"build an app to convert my voice" the category `development` is the
unique highest-scoring category (score 3, all others at most 1), so the
claim prescribes category `development` with confidence `high`; the code
returns `audio` with confidence `medium` (disambiguation override). -/
theorem classifyTaskSync_counterexample :
    (classifyTaskSync "build an app to convert my voice").allScores.lookup "development" =
      some 3 ∧
    (∀ p ∈ (classifyTaskSync "build an app to convert my voice").allScores,
      p.1 ≠ "development" → p.2 ≤ 1) ∧
    (classifyTaskSync "build an app to convert my voice").taskType = "audio" ∧
    (classifyTaskSync "build an app to convert my voice").confidence = "medium" := by
  simp only [classifyTaskSync, classifyByKeywords, classifier_sort_eq]
  decide

/-- C2: whenever the top-ranked category is `development` and the
second-ranked category scores at least 1 and is a specific domain
(audio / video / vision), the classifier re-classifies to that domain,
forces confidence `medium`, and returns the concatenation (hence the
union) of the domain's and development's matched keywords. -/
theorem classify_disambiguation (task : String)
    (h1 : (firstMaxCat (keywordScores task)).1 = "development")
    (h2 : 1 ≤ (secondMaxCat (keywordScores task)).2)
    (h3 : (secondMaxCat (keywordScores task)).1 ∈ specificDomains) :
    (classifyTaskSync task).taskType = (secondMaxCat (keywordScores task)).1 ∧
    (classifyTaskSync task).confidence = "medium" ∧
    (classifyTaskSync task).matchedKeywords =
      ((categoryMatches task).lookup (secondMaxCat (keywordScores task)).1).getD [] ++
        ((categoryMatches task).lookup "development").getD [] ∧
    ∀ k, k ∈ (classifyTaskSync task).matchedKeywords ↔
      (k ∈ ((categoryMatches task).lookup (secondMaxCat (keywordScores task)).1).getD [] ∨
        k ∈ ((categoryMatches task).lookup "development").getD []) := by
  have hne : keywordScores task ≠ [] := by
    intro hnil
    have := keywordScores_length task
    rw [hnil] at this
    simp at this
  have hlen2 : 2 ≤ (keywordScores task).length := by
    rw [keywordScores_length]
    omega
  have htop := mergeSort_scoreDesc_headD (keywordScores task) hne ("", 0)
  have hsec := mergeSort_scoreDesc_getD_one (keywordScores task) hlen2 ("", 0)
  simp only [classifyTaskSync, classifyByKeywords, htop, hsec,
    if_pos (And.intro h1 (And.intro h2 h3))]
  exact ⟨by trivial, by trivial, by trivial, fun k => List.mem_append⟩

/-- Witness for C2 at the spec sheet input: "an app to convert my voice
into someone else" classifies as audio with the merged keyword list. -/
theorem classify_disambiguation_witness :
    (classifyTaskSync "an app to convert my voice into someone else").taskType = "audio" ∧
    (classifyTaskSync "an app to convert my voice into someone else").confidence = "medium" ∧
    (classifyTaskSync "an app to convert my voice into someone else").matchedKeywords =
      ["voice", "app", "convert"] := by
  have h := classify_disambiguation "an app to convert my voice into someone else"
    (by decide) (by decide) (by decide)
  exact ⟨h.1.trans (by decide), h.2.1, h.2.2.1.trans (by decide)⟩

/-- C8: the classifier is a total function (it is defined for every
string and never throws), and whenever every category scores 0 it
returns the `chat` / `low` default with an empty keyword list. -/
theorem classify_zero_scores_default (task : String)
    (h : ∀ p ∈ keywordScores task, p.2 = 0) :
    classifyTaskSync task =
      { taskType := "chat", confidence := "low", matchedKeywords := [],
        allScores := keywordScores task, usedFallback := false } := by
  have hne : keywordScores task ≠ [] := by
    intro hnil
    have := keywordScores_length task
    rw [hnil] at this
    simp at this
  have hlen2 : 2 ≤ (keywordScores task).length := by
    rw [keywordScores_length]
    omega
  have htop := mergeSort_scoreDesc_headD (keywordScores task) hne ("", 0)
  have hsec := mergeSort_scoreDesc_getD_one (keywordScores task) hlen2 ("", 0)
  obtain ⟨q, mt, hq⟩ : ∃ q mt, categoryMatches task = q :: mt := by
    cases hcm : categoryMatches task with
    | nil =>
      exfalso
      apply hne
      simp [keywordScores, hcm]
    | cons q mt => exact ⟨q, mt, rfl⟩
  have hks : keywordScores task = (q.1, q.2.length) :: mt.map (fun p => (p.1, p.2.length)) := by
    simp [keywordScores, hq]
  have htop_a : firstMaxCat (keywordScores task) = (q.1, q.2.length) := by
    rw [hks]
    show pickMin scoreDesc (q.1, q.2.length) (mt.map fun p => (p.1, p.2.length)) = _
    apply pickMin_of_all_zero
    rw [← hks]
    exact h
  have hq_len : q.2.length = 0 := by
    have : ((q.1, q.2.length) : String × Nat) ∈ keywordScores task := by
      rw [hks]
      exact List.mem_cons_self _ _
    exact h _ this
  have hsec_zero : (secondMaxCat (keywordScores task)).2 = 0 := by
    unfold secondMaxCat
    cases herase : (keywordScores task).erase (firstMaxCat (keywordScores task)) with
    | nil => rfl
    | cons b u =>
      have hmem : firstMaxCat (b :: u) ∈ b :: u := pickMin_mem scoreDesc b u
      have : firstMaxCat (b :: u) ∈ keywordScores task := by
        apply List.mem_of_mem_erase
        rw [herase]
        exact hmem
      exact h _ this
  have hlookup : (categoryMatches task).lookup q.1 = some q.2 := by
    rw [hq]
    show List.lookup q.1 ((q.1, q.2) :: mt) = some q.2
    simp [List.lookup]
  have hqnil : q.2 = [] := List.length_eq_zero.mp hq_len
  have hcond : ¬ ((firstMaxCat (keywordScores task)).1 = "development" ∧
      1 ≤ (secondMaxCat (keywordScores task)).2 ∧
      (secondMaxCat (keywordScores task)).1 ∈ specificDomains) := by
    rintro ⟨-, hge, -⟩
    rw [hsec_zero] at hge
    omega
  simp only [classifyTaskSync, classifyByKeywords, htop, hsec, if_neg hcond]
  simp [htop_a, hq_len, hqnil, hlookup, hsec_zero]

/-- Witness for C8 at the empty input: no keyword matches, so the
classifier returns the chat / low default with no matched keywords. -/
theorem classify_zero_scores_default_witness :
    classifyTaskSync "" =
      { taskType := "chat", confidence := "low", matchedKeywords := [],
        allScores := keywordScores "", usedFallback := false } :=
  classify_zero_scores_default "" (by decide)

/-- C9: an update cycle always completes with exactly one report per
configured source, in source order; each report depends only on its own
source's environment (so one source's failure cannot affect a sibling);
a thrown error in the Azure fetcher resolves to a `failed` report with
the error message instead of rejecting the cycle, a 2xx response yields
`success` or `no_change` by the updated count; every report's status is
one of the three terminal values. -/
theorem runPricingUpdate_isolates_failures (env : UpdaterEnv) :
    (runPricingUpdate env).updates = [
      fetchOpenAIPricing env.openai,
      fetchAnthropicPricing env.anthropic,
      fetchAWSBulkPricing env.aws,
      fetchAzurePricing env.azure,
      fetchGCPPricing env.gcp,
      fetchSupabasePricing env.supabase,
      fetchVercelPricing env.vercel,
      fetchMongoDBPricing env.mongodb,
      fetchCloudflarePricing env.cloudflare] ∧
    (runPricingUpdate env).updates.length = 9 ∧
    (∀ e, fetchAzurePricing (Except.error e) =
      { source := "Azure VMs", itemsUpdated := 0, status := .failed, message := some e }) ∧
    (∀ b : HttpBody, b.respOk = true →
      (fetchAzurePricing (Except.ok b)).status =
        (if 0 < b.updatedCount then UpdStatus.success else UpdStatus.no_change)) ∧
    (∀ u ∈ (runPricingUpdate env).updates,
      u.status = .success ∨ u.status = .no_change ∨ u.status = .failed) := by
  refine ⟨rfl, rfl, fun e => rfl, fun b hb => ?_, fun u hu => ?_⟩
  · simp [fetchAzurePricing, hb]
  · cases u.status <;> simp

/-- Witness for C9 at `timeoutCycleEnv`: the cycle with a timed-out
Azure source still reports all nine sources, exactly one of them failed. -/
theorem runPricingUpdate_isolates_failures_witness :
    (runPricingUpdate timeoutCycleEnv).updates.length = 9 ∧
    ((runPricingUpdate timeoutCycleEnv).updates.filter
      (fun u => u.status = UpdStatus.failed)).length = 1 ∧
    ((runPricingUpdate timeoutCycleEnv).updates.filter
      (fun u => u.status = UpdStatus.failed)).map (·.source) = ["Azure VMs"] := by
  have h := runPricingUpdate_isolates_failures timeoutCycleEnv
  refine ⟨h.2.1, ?_, ?_⟩ <;>
    (rw [h.1]; decide)

theorem getLastD_mem {α : Type} : ∀ (l : List α) (d : α), l ≠ [] → l.getLastD d ∈ l := by
  intro l
  induction l with
  | nil => intro d h; simp at h
  | cons a t ih =>
    intro d _
    rw [List.getLastD_cons]
    cases t with
    | nil => simp [List.getLastD]
    | cons b u => exact List.mem_cons_of_mem a (ih a (by simp))

theorem find?_pred_true {l : List DbTier} {p : DbTier → Bool} {t : DbTier}
    (h : l.find? p = some t) : p t = true :=
  List.find?_some h

theorem find_first_cheapest (p : DbTier → Bool) :
    ∀ (tiers : List DbTier), tiers.Pairwise (fun a b => a.cost ≤ b.cost) →
      ∀ t, tiers.find? p = some t → ∀ t2 ∈ tiers, p t2 → t.cost ≤ t2.cost := by
  intro tiers
  induction tiers with
  | nil => intro _ t ht; simp at ht
  | cons x rest ih =>
    intro hs t ht t2 ht2 hp2
    by_cases hx : p x
    · rw [List.find?_cons_of_pos _ hx] at ht
      injection ht with ht
      subst ht
      rcases List.mem_cons.mp ht2 with rfl | h2
      · exact le_refl _
      · exact (List.pairwise_cons.mp hs).1 t2 h2
    · rw [List.find?_cons_of_neg _ hx] at ht
      rcases List.mem_cons.mp ht2 with rfl | h2
      · exact absurd hp2 hx
      · exact ih (List.pairwise_cons.mp hs).2 t ht t2 h2 hp2

/-- C7 (amended): on a non-empty tier table sorted ascending by cost
with positive storage limits, the handler recommends the first (hence
cheapest) tier whose storage limit covers the current usage; when no
tier fits it falls back to the last (largest) tier whose limit is below
the usage, and the response carries no dedicated degraded-case marker —
the only trace is a non-positive rounded headroom percentage. -/
theorem handleDatabaseTierRecommendation_spec (tiers : List DbTier)
    (storageGb growth : ℚ) (hne : tiers ≠ [])
    (hsorted : tiers.Pairwise fun a b => a.cost ≤ b.cost)
    (hpos : ∀ t ∈ tiers, 0 < t.storage) :
    ∃ r, handleDatabaseTierRecommendation tiers storageGb growth = Except.ok r ∧
      (∀ t, tiers.find? (fun t => storageGb ≤ t.storage) = some t →
        r.recommendedTier = t.name ∧ r.recommendedCost = t.cost ∧
        r.tierLimitStorage = t.storage ∧ storageGb ≤ t.storage ∧
        ∀ t2 ∈ tiers, storageGb ≤ t2.storage → t.cost ≤ t2.cost) ∧
      (tiers.find? (fun t => storageGb ≤ t.storage) = none →
        r.recommendedTier = (tiers.getLastD { name := "", cost := 0, storage := 0 }).name ∧
        r.tierLimitStorage < storageGb ∧
        r.headroomPercent ≤ 0) ∧
      ¬ specSignalsDegraded r := by
  have hempty : tiers.isEmpty = false := by
    cases tiers with
    | nil => exact absurd rfl hne
    | cons a t => simp
  simp only [handleDatabaseTierRecommendation, hempty, Bool.false_eq_true, if_false]
  refine ⟨_, rfl, ?_, ?_, ?_⟩
  · intro t ht
    simp only [ht, Option.getD_some]
    refine ⟨by trivial, by trivial, by trivial, ?_, ?_⟩
    · exact of_decide_eq_true (find?_pred_true ht)
    · intro t2 ht2 hle
      exact find_first_cheapest _ tiers hsorted t ht t2 ht2 (decide_eq_true hle)
  · intro hnone
    simp only [hnone, Option.getD_none]
    set last := tiers.getLastD { name := "", cost := 0, storage := 0 } with hlast
    have hmem : last ∈ tiers := getLastD_mem tiers _ hne
    have hnofit : ¬ storageGb ≤ last.storage := by
      have := List.find?_eq_none.mp hnone last hmem
      simpa using this
    have hlt : last.storage < storageGb := lt_of_not_le hnofit
    have hsp : 0 < last.storage := hpos last hmem
    refine ⟨by trivial, hlt, ?_⟩
    have hqneg : (last.storage - storageGb) / last.storage * 100 < 0 := by
      have h1 : (last.storage - storageGb) / last.storage < 0 :=
        div_neg_of_neg_of_pos (by linarith) hsp
      nlinarith
    show jsRound ((last.storage - storageGb) / last.storage * 100) ≤ 0
    unfold jsRound
    have hle2 : (last.storage - storageGb) / last.storage * 100 + 1 / 2 ≤ (1 / 2 : ℚ) := by
      linarith
    have hmono := Int.floor_le_floor hle2
    have hhalf : ⌊(1 / 2 : ℚ)⌋ = 0 := by norm_num
    rw [hhalf] at hmono
    exact hmono
  · simp [specSignalsDegraded]

/-- Counterexample to C7 as frozen: with the supabase fallback tiers and
200 GB of usage no tier fits; the handler recommends `team` (limit 100
GB, below usage) and the response carries no degraded-case signal
(its insights are always the action / prediction pair, never a
warning). -/
theorem databaseTier_counterexample :
    (∀ t ∈ supabaseTiers, t.storage < 200) ∧
    (∃ r, handleDatabaseTierRecommendation supabaseTiers 200 (1/5) = Except.ok r ∧
      r.recommendedTier = "team" ∧ r.tierLimitStorage = 100 ∧
      r.tierLimitStorage < 200 ∧ ¬ specSignalsDegraded r) := by
  constructor
  · intro t ht
    fin_cases ht <;> norm_num [supabaseTiers]
  · have hfind : supabaseTiers.find? (fun t => (200 : ℚ) ≤ t.storage) = none := by
      rw [List.find?_eq_none]
      intro t ht
      fin_cases ht <;> norm_num [supabaseTiers]
    have hempty : supabaseTiers.isEmpty = false := rfl
    simp only [handleDatabaseTierRecommendation, hempty, Bool.false_eq_true, if_false]
    rw [hfind]
    refine ⟨_, rfl, ?_, ?_, ?_, ?_⟩
    · rfl
    · rfl
    · norm_num [supabaseTiers, List.getLastD]
    · simp [specSignalsDegraded]

/-- Witness for C7 at the mongodb fallback tiers with 5 GB of usage:
the cheapest fitting tier is m10. -/
theorem handleDatabaseTierRecommendation_spec_witness :
    ∃ r, handleDatabaseTierRecommendation mongodbTiers 5 (3/10) = Except.ok r ∧
      r.recommendedTier = "m10" ∧ r.recommendedCost = 57 := by
  obtain ⟨r, hok, hfit, -, -⟩ := handleDatabaseTierRecommendation_spec mongodbTiers 5 (3/10)
    (by simp [mongodbTiers])
    (by norm_num [mongodbTiers, List.pairwise_cons])
    (by intro t ht; fin_cases ht <;> norm_num [mongodbTiers])
  have hfind : mongodbTiers.find? (fun t => (5 : ℚ) ≤ t.storage) =
      some { name := "m10", cost := 57, storage := 10 } := by
    unfold mongodbTiers
    rw [List.find?_cons_of_neg _ (by simp only [decide_eq_true_eq]; norm_num),
      List.find?_cons_of_pos _ (by simp only [decide_eq_true_eq]; norm_num)]
  obtain ⟨h1, h2, -⟩ := hfit _ hfind
  exact ⟨r, hok, h1, h2⟩

/-! ### Substring facts used by the unknown-model error messages -/

theorem isPre_append_self : ∀ (p b : List Char), isPre p (p ++ b) = true := by
  intro p
  induction p with
  | nil => intro b; rfl
  | cons a as ih => intro b; simp [isPre, ih]

theorem listHasSub_of_isPre : ∀ (s p : List Char), isPre p s = true →
    listHasSub s p = true := by
  intro s p h
  cases s with
  | nil => simpa [listHasSub] using h
  | cons c rest => simp [listHasSub, h]

theorem listHasSub_append_left : ∀ (a s p : List Char),
    listHasSub s p = true → listHasSub (a ++ s) p = true := by
  intro a
  induction a with
  | nil => intro s p h; simpa using h
  | cons c cs ih =>
    intro s p h
    simp only [List.cons_append, listHasSub, Bool.or_eq_true]
    exact Or.inr (ih s p h)

theorem listHasSub_middle (x p y : List Char) : listHasSub (x ++ (p ++ y)) p = true :=
  listHasSub_append_left x _ p (listHasSub_of_isPre _ p (isPre_append_self p y))

theorem listHasSub_self (p : List Char) : listHasSub p p = true := by
  have := listHasSub_of_isPre p p (by simpa using isPre_append_self p [])
  exact this

theorem hasSub_joinSep : ∀ (keys : List String) (k : String), k ∈ keys →
    hasSub (joinSep keys) k = true := by
  intro keys
  induction keys with
  | nil => intro k h; simp at h
  | cons k0 rest ih =>
    intro k h
    cases rest with
    | nil =>
      rcases List.mem_singleton.mp h with rfl
      exact listHasSub_self k.data
    | cons r rs =>
      rcases List.mem_cons.mp h with rfl | h2
      · show listHasSub (k ++ ", " ++ joinSep (r :: rs)).data k.data = true
        have hd : (k ++ ", " ++ joinSep (r :: rs)).data =
            [] ++ (k.data ++ (", " ++ joinSep (r :: rs)).data) := by
          simp [List.append_assoc]
        rw [hd]
        exact listHasSub_middle [] k.data (", " ++ joinSep (r :: rs)).data
      · show listHasSub (k0 ++ ", " ++ joinSep (r :: rs)).data k.data = true
        have hd : (k0 ++ ", " ++ joinSep (r :: rs)).data =
            (k0 ++ ", ").data ++ (joinSep (r :: rs)).data := by
          simp
        rw [hd]
        exact listHasSub_append_left _ _ _ (ih k h2)

/-- C4: an unknown model identifier (for Anthropic, one that the alias
table does not resolve to a catalog key either) makes the estimator fail
with an error message that names the unknown model and lists every valid
catalog identifier, and no cost result is produced. -/
theorem unknown_model_error :
    (∀ (catalog : List CatalogEntry) (model : String) (tin tout : ℚ),
      catalog.find? (fun e => e.name = model) = none →
      ∃ msg, estimateOpenAICost catalog model tin tout = Except.error msg ∧
        hasSub msg model = true ∧
        ∀ k ∈ catalog.map (·.name), hasSub msg k = true) ∧
    (∀ (catalog : List CatalogEntry) (model : String) (tin tout : ℚ),
      catalog.find?
        (fun e => e.name = (modelAliases.lookup (jsToLower model)).getD model) = none →
      ∃ msg, estimateAnthropicCost catalog model tin tout = Except.error msg ∧
        hasSub msg model = true ∧
        ∀ k ∈ (catalog.map (·.name)).filter (fun k => ¬ (k ∈ anthropicMetaKeys)),
          hasSub msg k = true) := by
  constructor
  · intro catalog model tin tout hnone
    refine ⟨_, by rw [estimateOpenAICost, hnone], ?_, ?_⟩
    · show listHasSub _ _ = true
      have hd : ("Unknown OpenAI model: " ++ model ++ ". Available: " ++
          joinSep (catalog.map (·.name))).data =
          "Unknown OpenAI model: ".data ++ (model.data ++
            (". Available: " ++ joinSep (catalog.map (·.name))).data) := by
        simp [List.append_assoc]
      rw [hd]
      exact listHasSub_middle _ _ _
    · intro k hk
      show listHasSub _ _ = true
      have hd : ("Unknown OpenAI model: " ++ model ++ ". Available: " ++
          joinSep (catalog.map (·.name))).data =
          ("Unknown OpenAI model: " ++ model ++ ". Available: ").data ++
            (joinSep (catalog.map (·.name))).data := by
        simp
      rw [hd]
      exact listHasSub_append_left _ _ _ (hasSub_joinSep _ k hk)
  · intro catalog model tin tout hnone
    refine ⟨_, by rw [estimateAnthropicCost]; rw [hnone], ?_, ?_⟩
    · show listHasSub _ _ = true
      have hd : ("Unknown Anthropic model: " ++ model ++ ". Available: " ++
          joinSep ((catalog.map (·.name)).filter fun k => ¬ (k ∈ anthropicMetaKeys))).data =
          "Unknown Anthropic model: ".data ++ (model.data ++
            (". Available: " ++
              joinSep ((catalog.map (·.name)).filter fun k => ¬ (k ∈ anthropicMetaKeys))).data) := by
        simp [List.append_assoc]
      rw [hd]
      exact listHasSub_middle _ _ _
    · intro k hk
      show listHasSub _ _ = true
      have hd : ("Unknown Anthropic model: " ++ model ++ ". Available: " ++
          joinSep ((catalog.map (·.name)).filter fun k => ¬ (k ∈ anthropicMetaKeys))).data =
          ("Unknown Anthropic model: " ++ model ++ ". Available: ").data ++
            (joinSep ((catalog.map (·.name)).filter fun k => ¬ (k ∈ anthropicMetaKeys))).data := by
        simp
      rw [hd]
      exact listHasSub_append_left _ _ _ (hasSub_joinSep _ k hk)

/-- Witness for C4: the unknown identifier gpt-5 on the OpenAI catalog
produces an error message naming gpt-5 and listing the catalog key
gpt-4o. -/
theorem unknown_model_error_witness :
    ∃ msg, estimateOpenAICost openaiPricing "gpt-5" 100 100 = Except.error msg ∧
      hasSub msg "gpt-5" = true ∧ hasSub msg "gpt-4o" = true := by
  obtain ⟨msg, he, hm, hk⟩ := unknown_model_error.1 openaiPricing "gpt-5" 100 100 (by decide)
  exact ⟨msg, he, hm, hk "gpt-4o" (by decide)⟩

/-- The alternatives list in selection normal form, used to evaluate
concrete estimates. -/
theorem altList_eq_selSort (catalog : List CatalogEntry) (model : String) (tin tout : ℚ) :
    altList catalog model tin tout =
      (selSort costAsc
        (((catalog.filter fun e => e.name ≠ model).map fun e =>
          (e.name,
            (calculateAIModelCost tin tout e.input_per_million e.output_per_million).totalCost)).length)
        ((catalog.filter fun e => e.name ≠ model).map fun e =>
          (e.name,
            (calculateAIModelCost tin tout e.input_per_million e.output_per_million).totalCost))).take 3 := by
  unfold altList
  congr 1
  exact mergeSort_eq_selSort costAsc costAsc_trans costAsc_total _ _ (le_refl _)

/-- C10 (implicit): `estimateAnthropicCost` resolves shorthand aliases
before the price lookup, but its alternatives filter excludes only the
caller's original string; because no entry is named by the alias, the
filter removes nothing, the returned `model` field is the alias, and
whenever the resolved canonical model ranks among the three cheapest
costed entries it appears in the alternatives of its own estimate. -/
theorem estimateAnthropicCost_alias_alternatives
    (catalog : List CatalogEntry) (model target : String) (tin tout : ℚ) (e : CatalogEntry)
    (halias : modelAliases.lookup (jsToLower model) = some target)
    (hfound : catalog.find? (fun c => c.name = target) = some e)
    (hnotkey : ∀ c ∈ catalog, c.name ≠ model) :
    ∃ r, estimateAnthropicCost catalog model tin tout = Except.ok r ∧
      r.model = model ∧
      catalog.filter (fun c => c.name ≠ model) = catalog ∧
      r.alternatives = altList catalog model tin tout ∧
      (target ∈ (altList catalog model tin tout).map Prod.fst →
        target ∈ r.alternatives.map Prod.fst) := by
  have hfilter : catalog.filter (fun c => c.name ≠ model) = catalog :=
    List.filter_eq_self.mpr fun c hc => decide_eq_true (hnotkey c hc)
  refine ⟨{ model := model
            totalCost := (calculateAIModelCost tin tout
              e.input_per_million e.output_per_million).totalCost
            inputCost := (calculateAIModelCost tin tout
              e.input_per_million e.output_per_million).inputCost
            outputCost := (calculateAIModelCost tin tout
              e.input_per_million e.output_per_million).outputCost
            costPer1M := calculateCostPerMillion e.input_per_million e.output_per_million
            alternatives := altList catalog model tin tout }, ?_, rfl, hfilter, rfl, fun h => h⟩
  rw [estimateAnthropicCost]
  rw [halias]
  show (match catalog.find? (fun c => c.name = target) with
    | none => Except.error _ | some pricing => Except.ok _) = _
  rw [hfound]

/-- Witness for C10: calling with the alias haiku (resolved to
claude-3-5-haiku-20241022, the second cheapest entry at 20M/20M tokens)
returns the alias in the `model` field and the resolved canonical model
inside its own alternatives list. -/
theorem estimateAnthropicCost_alias_alternatives_witness :
    ∃ r, estimateAnthropicCost anthropicPricing "haiku" 20000000 20000000 = Except.ok r ∧
      r.model = "haiku" ∧
      "claude-3-5-haiku-20241022" ∈ r.alternatives.map Prod.fst := by
  obtain ⟨r, hok, hm, -, -, himp⟩ := estimateAnthropicCost_alias_alternatives
    anthropicPricing "haiku" "claude-3-5-haiku-20241022" 20000000 20000000
    { name := "claude-3-5-haiku-20241022", input_per_million := 4/5, output_per_million := 4 }
    (by decide) (by rfl) (by decide)
  refine ⟨r, hok, hm, himp ?_⟩
  have hnk : ∀ c ∈ anthropicPricing, c.name ≠ "haiku" := by decide
  have hfilter : anthropicPricing.filter (fun c => c.name ≠ "haiku") = anthropicPricing :=
    List.filter_eq_self.mpr fun c hc => decide_eq_true (hnk c hc)
  have hcosts : (anthropicPricing.map fun e =>
      (e.name,
        (calculateAIModelCost 20000000 20000000
          e.input_per_million e.output_per_million).totalCost)) =
      [("claude-3-5-sonnet-20241022", 360), ("claude-3-5-haiku-20241022", 96),
        ("claude-3-opus-20240229", 1800), ("claude-3-sonnet-20240229", 360),
        ("claude-3-haiku-20240307", 30)] := by
    simp only [anthropicPricing, List.map_cons, List.map_nil]
    norm_num [calculateAIModelCost, round4, jsRound]
  rw [altList_eq_selSort, hfilter, hcosts]
  decide

theorem jsRound_le (x : ℚ) : (jsRound x : ℚ) ≤ x + 1 / 2 :=
  Int.floor_le _

theorem lt_jsRound (x : ℚ) : x - 1 / 2 < (jsRound x : ℚ) := by
  have h := Int.lt_floor_add_one (x + 1 / 2)
  unfold jsRound
  linarith

theorem jsRound_mono {x y : ℚ} (h : x ≤ y) : jsRound x ≤ jsRound y :=
  Int.floor_le_floor (by linarith)

theorem round4_mono {x y : ℚ} (h : x ≤ y) : round4 x ≤ round4 y := by
  unfold round4
  have hz : (jsRound (x * 10000) : ℚ) ≤ (jsRound (y * 10000) : ℚ) := by
    exact_mod_cast jsRound_mono (by nlinarith)
  have h10 : (0 : ℚ) ≤ 10000 := by norm_num
  exact div_le_div_of_nonneg_right hz h10

theorem abs_round4_sub_le (x : ℚ) : |round4 x - x| ≤ 1 / 20000 := by
  unfold round4
  have h1 := jsRound_le (x * 10000)
  have h2 := lt_jsRound (x * 10000)
  rw [abs_le]
  constructor <;> [nlinarith; nlinarith]

/-- C3: for non-negative catalog rates and token counts, the token-cost
calculation returns `round4`-rounded sub-costs, the rounded total agrees with the
sum of the rounded sub-costs within rounding tolerance (3/20000), and the
total is monotone when either token count grows. -/
theorem calculateAIModelCost_round4_and_monotone
    (tin tout rin rout tin2 tout2 : ℚ)
    (hrin : 0 ≤ rin) (hrout : 0 ≤ rout)
    (_htin : 0 ≤ tin) (_htout : 0 ≤ tout)
    (h1 : tin ≤ tin2) (h2 : tout ≤ tout2) :
    (calculateAIModelCost tin tout rin rout).inputCost = round4 (tin / 1000000 * rin) ∧
    (calculateAIModelCost tin tout rin rout).outputCost = round4 (tout / 1000000 * rout) ∧
    |(calculateAIModelCost tin tout rin rout).totalCost -
      ((calculateAIModelCost tin tout rin rout).inputCost +
        (calculateAIModelCost tin tout rin rout).outputCost)| ≤ 3 / 20000 ∧
    (calculateAIModelCost tin tout rin rout).totalCost ≤
      (calculateAIModelCost tin2 tout2 rin rout).totalCost := by
  refine ⟨rfl, rfl, ?_, ?_⟩
  · have ha := abs_round4_sub_le (tin / 1000000 * rin)
    have hb := abs_round4_sub_le (tout / 1000000 * rout)
    have hab := abs_round4_sub_le (tin / 1000000 * rin + tout / 1000000 * rout)
    rw [abs_le] at ha hb hab ⊢
    simp only [calculateAIModelCost]
    constructor <;> linarith [ha.1, ha.2, hb.1, hb.2, hab.1, hab.2]
  · simp only [calculateAIModelCost]
    apply round4_mono
    have e1 : tin / 1000000 * rin ≤ tin2 / 1000000 * rin := by nlinarith
    have e2 : tout / 1000000 * rout ≤ tout2 / 1000000 * rout := by nlinarith
    linarith

/-- Witness for C3 at a concrete input (gpt-4o rates, growing input tokens). -/
theorem calculateAIModelCost_round4_and_monotone_witness :
    |(calculateAIModelCost 1000 500 (5/2) 10).totalCost -
      ((calculateAIModelCost 1000 500 (5/2) 10).inputCost +
        (calculateAIModelCost 1000 500 (5/2) 10).outputCost)| ≤ 3 / 20000 ∧
    (calculateAIModelCost 1000 500 (5/2) 10).totalCost ≤
      (calculateAIModelCost 2000 500 (5/2) 10).totalCost := by
  have h := calculateAIModelCost_round4_and_monotone 1000 500 (5/2) 10 2000 500
    (by norm_num) (by norm_num) (by norm_num) (by norm_num) (by norm_num) (by norm_num)
  exact ⟨h.2.2.1, h.2.2.2⟩

/-- C5: break-even yields 0 with the cheaper-upfront option on equal
monthly costs; otherwise the rounded crossover ratio when non-negative;
a negative ratio yields no number and the reported permanent winner
really dominates on both upfront and monthly cost. -/
theorem calculateBreakEven_spec (uA mA uB mB : ℚ) :
    (mA = mB →
      (calculateBreakEven uA mA uB mB).breakEvenMonths = some 0 ∧
      (uA < uB → (calculateBreakEven uA mA uB mB).recommendation =
        "Option A has lower upfront cost with equal monthly costs") ∧
      (uB < uA → (calculateBreakEven uA mA uB mB).recommendation =
        "Option B has lower upfront cost with equal monthly costs")) ∧
    (mA ≠ mB →
      (0 ≤ (uB - uA) / (mA - mB) →
        (calculateBreakEven uA mA uB mB).breakEvenMonths =
          some (round1 ((uB - uA) / (mA - mB)))) ∧
      ((uB - uA) / (mA - mB) < 0 →
        (calculateBreakEven uA mA uB mB).breakEvenMonths = none ∧
        (((calculateBreakEven uA mA uB mB).recommendation = "Option A is always cheaper" ∧
            uA ≤ uB ∧ mA ≤ mB) ∨
          ((calculateBreakEven uA mA uB mB).recommendation = "Option B is always cheaper" ∧
            uB ≤ uA ∧ mB ≤ mA)))) := by
  constructor
  · intro heq
    by_cases hu : uA < uB
    · refine ⟨?_, fun _ => ?_, fun hBA => absurd (lt_trans hBA hu) (lt_irrefl _)⟩ <;>
        simp [calculateBreakEven, heq, hu]
    · refine ⟨?_, fun hAB => absurd hAB hu, fun _ => ?_⟩ <;>
        simp [calculateBreakEven, heq, hu]
  · intro hne
    have hd : mA - mB ≠ 0 := sub_ne_zero_of_ne hne
    simp only [calculateBreakEven, if_neg hne, if_neg hd]
    constructor
    · intro hpos
      rw [if_neg (not_lt.mpr hpos)]
    · intro hneg
      rw [if_pos hneg]
      by_cases hdom : uA ≤ uB ∧ mA ≤ mB
      · simp only [if_pos hdom]
        exact ⟨by trivial, Or.inl ⟨by trivial, hdom⟩⟩
      · simp only [if_neg hdom]
        refine ⟨by trivial, Or.inr ⟨by trivial, ?_⟩⟩
        rcases div_neg_iff.mp hneg with ⟨hn, hdneg⟩ | ⟨hnneg, hdpos⟩
        · -- numerator positive, denominator negative: mA < mB and uA < uB,
          -- contradicting the failed domination test
          exact absurd ⟨by linarith, by linarith⟩ hdom
        · -- numerator negative, denominator positive: B dominates
          exact ⟨by linarith, by linarith⟩

/-- Witness for C5: optionA = (0, 500), optionB = (3000, 200) break even
at 10 months. -/
theorem calculateBreakEven_spec_witness :
    (calculateBreakEven 0 500 3000 200).breakEvenMonths = some 10 := by
  have h := (calculateBreakEven_spec 0 500 3000 200).2 (by norm_num)
  have h10 := h.1 (by norm_num)
  rw [h10]
  norm_num [round1, jsRound]

theorem bandwidthLoop_zero : ∀ (tiers : List BwTier) (prev : ℚ),
    bandwidthLoop tiers 0 prev = (0, []) := by
  intro tiers prev
  cases tiers <;> simp [bandwidthLoop]

theorem capacityFrom_nonneg : ∀ (tiers : List BwTier) (prev c : ℚ),
    chainAsc prev tiers → capacityFrom prev tiers = some c → 0 ≤ c := by
  intro tiers
  induction tiers with
  | nil =>
    intro prev c _ h
    simp only [capacityFrom, Option.some.injEq] at h
    linarith
  | cons t rest ih =>
    intro prev c hch hc
    cases hl : t.limit with
    | none => simp [capacityFrom, hl] at hc
    | some l =>
      simp only [capacityFrom, hl] at hc
      cases hrec : capacityFrom l rest with
      | none => rw [hrec] at hc; simp at hc
      | some c2 =>
        rw [hrec] at hc
        simp only [Option.some.injEq] at hc
        have hch2 : prev ≤ l ∧ chainAsc l rest := by
          simpa [chainAsc, hl] using hch
        have := ih l c2 hch2.2 hrec
        linarith [hch2.1]

/-- Allocation completeness of the bandwidth loop: with ascending limits
the breakdown rows account for exactly the transferred GB, capped by the
total tier capacity (everything, when an unlimited tier is present). -/
theorem bandwidthLoop_sum_gb : ∀ (tiers : List BwTier) (remaining prev : ℚ),
    0 ≤ remaining → chainAsc prev tiers →
    ((bandwidthLoop tiers remaining prev).2.map (·.gb)).sum =
      (match capacityFrom prev tiers with
        | none => remaining
        | some c => min remaining c) := by
  intro tiers
  induction tiers with
  | nil =>
    intro remaining prev hr _
    simp only [bandwidthLoop, List.map_nil, List.sum_nil, capacityFrom]
    exact (min_eq_right hr).symm
  | cons t rest ih =>
    intro remaining prev hr hch
    by_cases hzero : remaining ≤ 0
    · have h0 : remaining = 0 := le_antisymm hzero hr
      subst h0
      rw [bandwidthLoop_zero]
      cases hcap : capacityFrom prev (t :: rest) with
      | none => simp
      | some c =>
        have hcge := capacityFrom_nonneg _ prev c hch hcap
        simp [min_eq_left hcge]
    · push_neg at hzero
      cases hl : t.limit with
      | none =>
        simp only [bandwidthLoop, if_neg (not_le.mpr hzero), hl, sub_self,
          bandwidthLoop_zero, if_pos hzero, capacityFrom]
        simp
      | some l =>
        have hch2 : prev ≤ l ∧ chainAsc l rest := by
          simpa [chainAsc, hl] using hch
        have hgb0 : (0 : ℚ) ≤ min remaining (l - prev) :=
          le_min (le_of_lt hzero) (by linarith [hch2.1])
        have hrem2 : 0 ≤ remaining - min remaining (l - prev) := by
          have : min remaining (l - prev) ≤ remaining := min_le_left _ _
          linarith
        have hih := ih (remaining - min remaining (l - prev)) l hrem2 hch2.2
        simp only [bandwidthLoop, if_neg (not_le.mpr hzero), hl]
        cases hcap2 : capacityFrom l rest with
        | none =>
          rw [hcap2] at hih
          simp only [capacityFrom, hl, hcap2]
          by_cases hgbpos : 0 < min remaining (l - prev)
          · simp only [if_pos hgbpos, List.cons_append, List.nil_append,
              List.map_cons, List.sum_cons, List.map_append, List.sum_append]
            rw [hih]
            ring
          · have hz : min remaining (l - prev) = 0 :=
              le_antisymm (not_lt.mp hgbpos) hgb0
            simp only [if_neg hgbpos, List.nil_append]
            rw [hih, hz]
            ring
        | some c2 =>
          rw [hcap2] at hih
          have hc2 := capacityFrom_nonneg rest l c2 hch2.2 hcap2
          simp only [capacityFrom, hl, hcap2]
          have key : min remaining (l - prev) +
              min (remaining - min remaining (l - prev)) c2 =
              min remaining ((l - prev) + c2) := by
            rcases le_total remaining (l - prev) with hc | hc
            · rw [min_eq_left hc, sub_self, min_eq_left hc2,
                min_eq_left (by linarith : remaining ≤ (l - prev) + c2)]
              ring
            · rw [min_eq_right hc]
              rcases le_total (remaining - (l - prev)) c2 with h2 | h2
              · rw [min_eq_left h2,
                  min_eq_left (by linarith : remaining ≤ (l - prev) + c2)]
                ring
              · rw [min_eq_right h2,
                  min_eq_right (by linarith : (l - prev) + c2 ≤ remaining)]
          by_cases hgbpos : 0 < min remaining (l - prev)
          · simp only [if_pos hgbpos, List.cons_append, List.nil_append,
              List.map_cons, List.sum_cons, List.map_append, List.sum_append]
            rw [hih]
            exact key
          · have hz : min remaining (l - prev) = 0 :=
              le_antisymm (not_lt.mp hgbpos) hgb0
            simp only [if_neg hgbpos, List.nil_append]
            rw [hih]
            rw [← key, hz]
            ring

/-- C6: for every non-negative transfer and ascending tier table, the
breakdown rows allocate exactly the transferred GB capped by the total
capacity (all of it when the table ends in an unlimited tier); on a tier
table with one finite tier of cumulative limit `L` followed by the
unlimited tier, the transfer is charged at rate `r1` for the GB fitting
below `L` and at rate `r2` for the spill; and the spec sheet example
(tiers 10000 GB at $0.09 then unlimited at $0.05 for a 15000 GB
transfer) produces the stated breakdown and total. -/
theorem calculateBandwidthCost_spec (g L r1 r2 : ℚ) (hg : 0 ≤ g) (hL : 0 ≤ L) :
    (calculateBandwidthCost g [{ limit := some L, rate := r1 },
        { limit := none, rate := r2 }]).1 =
      round2 (min g L * r1 + max (g - L) 0 * r2) ∧
    calculateBandwidthCost 15000 [{ limit := some 10000, rate := 9/100 },
        { limit := none, rate := 5/100 }] =
      (1150, [{ gb := 10000, cost := 900 }, { gb := 5000, cost := 250 }]) ∧
    (∀ (tiers : List BwTier) (g2 : ℚ), 0 ≤ g2 → chainAsc 0 tiers →
      (((calculateBandwidthCost g2 tiers).2.map (·.gb)).sum =
        match capacityFrom 0 tiers with
        | none => g2
        | some c => min g2 c)) := by
  refine ⟨?_, ?_, fun tiers g2 hg2 hasc => bandwidthLoop_sum_gb tiers g2 0 hg2 hasc⟩
  · by_cases hg0 : g ≤ 0
    · have hge : g = 0 := le_antisymm hg0 hg
      subst hge
      have hmin : min (0 : ℚ) L = 0 := min_eq_left hL
      have hmax : max (-L) 0 = 0 := max_eq_right (by linarith)
      simp [calculateBandwidthCost, bandwidthLoop, hmin, hmax]
    · push_neg at hg0
      have hfirst : ¬ g ≤ 0 := not_le.mpr hg0
      by_cases hrem : g - min g (L - 0) ≤ 0
      · -- the transfer fits inside the first tier
        have hgl : g ≤ L := by
          rcases min_cases g (L - 0) with ⟨he, _⟩ | ⟨he, hle⟩
          · rw [he] at hrem; linarith
          · rw [he] at hrem; linarith
        have hmin : min g (L - 0) = g := min_eq_left (by linarith)
        have hmax : max (g - L) 0 = 0 := max_eq_right (by linarith)
        simp only [calculateBandwidthCost, bandwidthLoop, if_neg hfirst]
        rw [hmin]
        have hrem0 : g - g ≤ 0 := by linarith
        simp only [if_pos hrem0]
        rw [show min g L = g from min_eq_left hgl, hmax]
        ring_nf
      · -- the transfer spills into the unlimited tier
        push_neg at hrem
        have hlg : L < g := by
          by_contra hcon
          push_neg at hcon
          rw [min_eq_left (by linarith : g ≤ L - 0)] at hrem
          linarith
        have hmin : min g (L - 0) = L := by
          rw [min_eq_right (by linarith : L - 0 ≤ g)]
          ring
        simp only [calculateBandwidthCost, bandwidthLoop, if_neg hfirst]
        rw [hmin]
        have hrem2 : ¬ g - L ≤ 0 := by linarith
        simp only [bandwidthLoop, if_neg hrem2]
        rw [show min g L = L from min_eq_right (le_of_lt hlg),
          show max (g - L) 0 = g - L from max_eq_left (by linarith)]
        ring_nf
  · have c1 : ¬ (15000 : ℚ) ≤ 0 := by norm_num
    have c2 : min (15000 : ℚ) (10000 - 0) = 10000 := by norm_num
    have c3 : ¬ (15000 : ℚ) - 10000 ≤ 0 := by norm_num
    simp only [calculateBandwidthCost, bandwidthLoop, if_neg c1, c2, if_neg c3]
    norm_num [round2, jsRound]

/-- Witness for C6 at the spec sheet inputs. -/
theorem calculateBandwidthCost_spec_witness :
    (calculateBandwidthCost 15000 [{ limit := some 10000, rate := 9/100 },
        { limit := none, rate := 5/100 }]).1 = 1150 := by
  have h := (calculateBandwidthCost_spec 15000 10000 (9/100) (5/100)
    (by norm_num) (by norm_num)).2.1
  rw [h]

end CloudCost
